import Mathlib

/-!
# Adaptive in-car volume control: a shallow embedding

This file embeds the core algorithms of the AdaptiveInCarVolumeControl
repository in Lean 4 and proves properties of them.

Floating-point (`f32`) arithmetic is modelled by exact arithmetic:
the integer-sample limiter pipeline (`soft_limit`, `apply_gain_and_limit`)
is embedded over `ℚ` so it stays computable, and the transcendental
parts (the exponential gain smoother, the log speed-to-noise model and
the sinusoidal sensor mocks) are embedded over `ℝ` with `Real.exp`,
`Real.log` and `Real.sin`.
-/

namespace AdaptiveVolume

/-! ## Rational sample pipeline (src/adaptive_gain.rs)

`soft_limit` and `apply_gain_and_limit` from `src/adaptive_gain.rs`
(identical copies live in `src/main.rs`).  Samples are `i16`, modelled
as `ℤ`; intermediate `f32` values are modelled as `ℚ`. -/

/-- Rust `f32::signum` on a nonzero value: `-1` for negatives, `1` otherwise
(Rust maps `+0.0` to `1.0`; `ℚ` has a single zero, mapped to `1`). -/
def signumF (x : ℚ) : ℚ := if x < 0 then -1 else 1

/-- Function `soft_limit` from `adaptive_gain.rs` lines 71–80: below the threshold
in absolute value the sample passes through; above it the excess is
compressed by `e / (1 + e)`. -/
def soft_limit (sample threshold : ℚ) : ℚ :=
  let abs := |sample|
  if abs ≤ threshold then sample
  else
    let sign := signumF sample
    let exceeded := (abs - threshold) / (1 + abs - threshold)
    sign * (threshold + exceeded)

/-- The value `i16::MAX as f32`. -/
def max_i16 : ℚ := 32767

/-- The limiter threshold `0.98 * max_i16` from `apply_gain_and_limit`.
(The `f32` rounding of `0.98` is `≈ 0.9800000191`; both it and the exact
`0.98` put the threshold strictly between the integers 32111 and 32112,
so integer-level behaviour is unchanged by using the exact value.) -/
def limThreshold : ℚ := (98 / 100) * max_i16

/-- Truncation toward zero, the rounding used by Rust `as` float-to-int
casts. -/
def ratTrunc (x : ℚ) : ℤ := if 0 ≤ x then ⌊x⌋ else ⌈x⌉

/-- Rust saturating `f32 as i16` cast: truncate toward zero, clamp into
`[i16::MIN, i16::MAX]`. -/
def castI16 (x : ℚ) : ℤ := max (-32768) (min 32767 (ratTrunc x))

/-- The per-sample body of the loop in `apply_gain_and_limit`
(`adaptive_gain.rs` lines 86–93): scale by the linear gain, soft-limit
at `0.98 * i16::MAX`, clamp to `[-i16::MAX, i16::MAX]`, cast back. -/
def applySample (gain_lin : ℚ) (s : ℤ) : ℤ :=
  let s_f : ℚ := (s : ℚ)
  let o := s_f * gain_lin
  let o2 := soft_limit o limThreshold
  let o_clamped := min (max o2 (-max_i16)) max_i16
  castI16 o_clamped

/-- Function `apply_gain_and_limit` from `adaptive_gain.rs` lines 82–95. -/
def apply_gain_and_limit (input : List ℤ) (gain_lin : ℚ) : List ℤ :=
  input.map (applySample gain_lin)

/-! ## Remote sensor fetch (src/audio_playback6.rs, src/audio_playback4.rs)

`fetch_remote_state` is embedded as a total function of an abstract
transport outcome: the HTTP layer either fails (`transportError`) or
delivers a response with a success flag and a body that parsed as JSON
(`some obj`) or was malformed (`none`).  `serde_json::Value` field
access is modelled by an association list; `as_f64` succeeds only on
numeric fields. -/

/-- A JSON field value: a number, or anything non-numeric. -/
inductive JsonField where
  | num (q : ℚ)
  | other
deriving DecidableEq

/-- A JSON object: an association list of string keys to field values. -/
structure JsonObj where
  fields : List (String × JsonField)
deriving DecidableEq

/-- Model of `serde_json::Value::get`. -/
def JsonObj.get (o : JsonObj) (k : String) : Option JsonField :=
  o.fields.lookup k

/-- Model of `serde_json::Value::as_f64`: numeric fields only. -/
def asF64 : JsonField → Option ℚ
  | .num q => some q
  | .other => none

/-- The access `json.get(k)` followed by `as_f64`: the numeric value at key `k`,
if the key is present and numeric. -/
def jsonNum (o : JsonObj) (k : String) : Option ℚ :=
  (o.get k).bind asF64

/-- Outcome of the blocking HTTP GET: transport failure, or a response
with a success status flag and a body (`none` when the body failed to
parse as JSON). -/
inductive FetchOutcome where
  | transportError
  | response (success : Bool) (body : Option JsonObj)
deriving DecidableEq

/-- Function `fetch_remote_state` from `audio_playback6.rs` lines 17–27:
`?`-chain — any transport error, non-success status, malformed body,
missing key, or non-numeric field yields `None`. -/
def fetch_remote_state6 (r : FetchOutcome) : Option (ℚ × ℚ) :=
  match r with
  | .transportError => none
  | .response success body =>
    if success = false then none
    else
      match body with
      | none => none
      | some json =>
        match jsonNum json "cabin_db" with
        | none => none
        | some cabin_db =>
          match jsonNum json "speed_kmh" with
          | none => none
          | some speed_kmh => some (cabin_db, speed_kmh)

/-- Function `fetch_remote_state` from `audio_playback4.rs` lines 19–38: explicit
matches instead of `?`, then `match (cabin_db, speed_kmh)` requiring
both fields. -/
def fetch_remote_state4 (r : FetchOutcome) : Option (ℚ × ℚ) :=
  match r with
  | .transportError => none
  | .response success body =>
    if success = false then none
    else
      match body with
      | none => none
      | some json =>
        match jsonNum json "cabin_db", jsonNum json "speed_kmh" with
        | some c, some s => some (c, s)
        | _, _ => none

/-! ## Transcendental core (src/adaptive_gain.rs, src/gain.rs) over `ℝ`

`Instant` timestamps are modelled as real numbers; `Instant` subtraction
(`now - earlier`) yields a `Duration`, which cannot be negative — Rust
saturates it at zero. -/

/-- Function `speed_to_noise` from `adaptive_gain.rs` lines 13–18 (the same
formula is duplicated in `gain.rs` and `main.rs`): `a * ln(speed+1) + b`
with `a = 6.0`, `b = 40.0`. -/
noncomputable def speed_to_noise (speed_kmh : ℝ) : ℝ :=
  let a : ℝ := 6.0
  let b : ℝ := 40.0
  a * Real.log (speed_kmh + 1.0) + b

/-- Rust `Instant` subtraction as seconds: saturating at zero. -/
noncomputable def instantSub (now earlier : ℝ) : ℝ := max (now - earlier) 0

/-- The `Smoother` state from `adaptive_gain.rs` lines 20–25. -/
structure Smoother where
  value_db : ℝ
  tau_attack : ℝ
  tau_release : ℝ
  last_update : ℝ

/-- Constructor `Smoother::new` (`adaptive_gain.rs` lines 28–35); `Instant::now()`
is the explicit `now` argument. -/
def Smoother.new (init_db tau_attack tau_release now : ℝ) : Smoother :=
  ⟨init_db, tau_attack, tau_release, now⟩

/-- The time-constant selection inside `Smoother::step` / `step_dt`:
`if target_db < self.value_db { tau_release } else { tau_attack }`. -/
noncomputable def Smoother.tauSelect (s : Smoother) (target_db : ℝ) : ℝ :=
  if target_db < s.value_db then s.tau_release else s.tau_attack

/-- Method `Smoother::step_dt` (`adaptive_gain.rs` lines 57–63): explicit-`dt`
step.  Returns the updated state together with the returned value. -/
noncomputable def Smoother.step_dt (s : Smoother) (target_db dt : ℝ) :
    Smoother × ℝ :=
  if dt ≤ 0 then (s, s.value_db)
  else
    let tau := s.tauSelect target_db
    let alpha := 1 - Real.exp (-dt / tau)
    let v := s.value_db + alpha * (target_db - s.value_db)
    ({ s with value_db := v }, v)

/-- Method `Smoother::step` (`adaptive_gain.rs` lines 38–53): wall-clock step.
The code stores `last_update = now` before the `dt <= 0` early return,
so `last_update` is refreshed on every call. -/
noncomputable def Smoother.step (s : Smoother) (target_db now : ℝ) :
    Smoother × ℝ :=
  let dt := instantSub now s.last_update
  let s1 : Smoother := { s with last_update := now }
  if dt ≤ 0 then (s1, s1.value_db)
  else
    let tau := s1.tauSelect target_db
    let alpha := 1 - Real.exp (-dt / tau)
    let v := s1.value_db + alpha * (target_db - s1.value_db)
    ({ s1 with value_db := v }, v)

/-- A run of `k` repeated `step_dt` calls with a fixed target and `dt`
(the spec's "value after `k` steps of total elapsed time `k*dt`"). -/
noncomputable def Smoother.stepIter (s : Smoother) (target_db dt : ℝ) :
    ℕ → Smoother
  | 0 => s
  | k + 1 => ((s.stepIter target_db dt k).step_dt target_db dt).1

/-- Function `db_to_lin` from `adaptive_gain.rs` lines 66–68. -/
noncomputable def db_to_lin (db : ℝ) : ℝ := (10 : ℝ) ^ (db / 20)

/-- The `AdaptiveGain` state from `gain.rs` lines 3–10. -/
structure AdaptiveGain where
  last_gain_db : ℝ
  last_update : ℝ
  tau_attack : ℝ
  tau_release : ℝ
  l_desired_db : ℝ
  user_offset_db : ℝ

/-- Constructor `AdaptiveGain::new` (`gain.rs` lines 13–22): `last_gain_db` starts
at `0.0`; `Instant::now()` is the explicit `now` argument. -/
def AdaptiveGain.new (l_desired_db tau_attack tau_release user_offset_db
    now : ℝ) : AdaptiveGain :=
  ⟨0, now, tau_attack, tau_release, l_desired_db, user_offset_db⟩

/-- The raw gain computed at the top of `AdaptiveGain::compute_gain`
(`gain.rs` lines 31–33): `l_desired - max(cabin, speed_to_noise) +
user_offset`, then `clamp(-12.0, 12.0)`. -/
noncomputable def AdaptiveGain.rawGain (g : AdaptiveGain)
    (cabin_db speed_kmh : ℝ) : ℝ :=
  let noise_db := max cabin_db (speed_to_noise speed_kmh)
  min (max (g.l_desired_db - noise_db + g.user_offset_db) (-12)) 12

/-- The time-constant selection inside `AdaptiveGain::compute_gain`
(`gain.rs` lines 39–43): `if raw_gain_db > self.last_gain_db
{ tau_attack } else { tau_release }`. -/
noncomputable def AdaptiveGain.tauSelect (g : AdaptiveGain)
    (raw_gain_db : ℝ) : ℝ :=
  if raw_gain_db > g.last_gain_db then g.tau_attack else g.tau_release

/-- Method `AdaptiveGain::compute_gain` (`gain.rs` lines 30–49).  Returns the
updated state together with the returned `(gain_db, gain_lin)` pair. -/
noncomputable def AdaptiveGain.compute_gain (g : AdaptiveGain)
    (cabin_db speed_kmh now : ℝ) : AdaptiveGain × ℝ × ℝ :=
  let raw_gain_db := g.rawGain cabin_db speed_kmh
  let dt := instantSub now g.last_update
  let tau := g.tauSelect raw_gain_db
  let alpha := 1 - Real.exp (-dt / tau)
  let new_gain := g.last_gain_db + alpha * (raw_gain_db - g.last_gain_db)
  let gain_lin := (10 : ℝ) ^ (new_gain / 20)
  ({ g with last_gain_db := new_gain, last_update := now },
   new_gain, gain_lin)

/-- A whole session of `compute_gain` calls from a given state, each
call receiving `(cabin_db, speed_kmh, now)`. -/
noncomputable def AdaptiveGain.runCalls (g : AdaptiveGain) :
    List (ℝ × ℝ × ℝ) → AdaptiveGain
  | [] => g
  | (c, s, now) :: rest => ((g.compute_gain c s now).1).runCalls rest

/-- Function `mock_get_cabin_noise_db` from `adaptive_gain.rs` lines 97–102. -/
noncomputable def mock_get_cabin_noise_db (t : ℝ) : ℝ :=
  let base : ℝ := 60.0
  base + 5.0 * Real.sin (0.2 * t) + 8.0 * Real.sin (0.5 * t)

/-- Function `mock_get_speed_kmh` from `adaptive_gain.rs` lines 104–107. -/
noncomputable def mock_get_speed_kmh (t : ℝ) : ℝ :=
  60.0 + 40.0 * Real.sin (0.05 * t)

/-! ## Helper lemmas -/

/-- Truncation toward zero is the identity on integers. -/
theorem ratTrunc_intCast (n : ℤ) : ratTrunc (n : ℚ) = n := by
  unfold ratTrunc
  split <;> simp

/-- Claim C3: for every sample `s` and threshold `t > 0`, `soft_limit`
passes `s` through unchanged when `|s| ≤ t`; when `|s| > t` it returns
`sign(s) * (t + (|s| - t) / (1 + |s| - t))`, whose magnitude lies
strictly between `t` and `|s|` and whose sign equals the sign of `s`. -/
theorem C3_soft_limit_spec (s t : ℚ) (ht : 0 < t) :
    (|s| ≤ t → soft_limit s t = s) ∧
    (t < |s| →
      soft_limit s t = signumF s * (t + (|s| - t) / (1 + |s| - t)) ∧
      t < |soft_limit s t| ∧ |soft_limit s t| < |s| ∧
      (0 < s → 0 < soft_limit s t) ∧ (s < 0 → soft_limit s t < 0)) := by
  constructor
  · intro h
    simp only [soft_limit]
    rw [if_pos h]
  · intro h
    have hns : ¬ |s| ≤ t := not_le.mpr h
    have heq : soft_limit s t
        = signumF s * (t + (|s| - t) / (1 + |s| - t)) := by
      simp only [soft_limit]
      rw [if_neg hns]
    have hd : 0 < 1 + |s| - t := by
      have := abs_nonneg s
      linarith
    have hfrac_pos : 0 < (|s| - t) / (1 + |s| - t) :=
      div_pos (by linarith) hd
    have hfrac_lt : (|s| - t) / (1 + |s| - t) < |s| - t := by
      rw [div_lt_iff₀ hd]
      nlinarith
    have hm_pos : 0 < t + (|s| - t) / (1 + |s| - t) := by linarith
    have hs0 : s ≠ 0 := by
      intro h0
      rw [h0, abs_zero] at h
      linarith
    rcases lt_or_gt_of_ne hs0 with hneg | hpos
    · have hsg : signumF s = -1 := by simp [signumF, hneg]
      have hval : soft_limit s t
          = -(t + (|s| - t) / (1 + |s| - t)) := by
        rw [heq, hsg]
        ring
      have habs : |soft_limit s t| = t + (|s| - t) / (1 + |s| - t) := by
        rw [hval, abs_neg, abs_of_pos hm_pos]
      refine ⟨heq, ?_, ?_, ?_, ?_⟩
      · rw [habs]
        linarith
      · rw [habs]
        linarith
      · intro hc
        linarith
      · intro _
        rw [hval]
        linarith
    · have hsg : signumF s = 1 := by
        simp [signumF, not_lt.mpr hpos.le]
      have hval : soft_limit s t = t + (|s| - t) / (1 + |s| - t) := by
        rw [heq, hsg]
        ring
      have habs : |soft_limit s t| = t + (|s| - t) / (1 + |s| - t) := by
        rw [hval, abs_of_pos hm_pos]
      refine ⟨heq, ?_, ?_, ?_, ?_⟩
      · rw [habs]
        linarith
      · rw [habs]
        linarith
      · intro _
        rw [hval]
        linarith
      · intro hc
        linarith

/-- Witness for C3 at `s = 2`, `t = 1`. -/
theorem C3_witness :
    (|(2 : ℚ)| ≤ 1 → soft_limit 2 1 = 2) ∧
    ((1 : ℚ) < |(2 : ℚ)| →
      soft_limit 2 1 = signumF 2 * (1 + (|(2 : ℚ)| - 1) / (1 + |(2 : ℚ)| - 1)) ∧
      (1 : ℚ) < |soft_limit 2 1| ∧ |soft_limit 2 1| < |(2 : ℚ)| ∧
      ((0 : ℚ) < 2 → 0 < soft_limit 2 1) ∧ ((2 : ℚ) < 0 → soft_limit 2 1 < 0)) :=
  C3_soft_limit_spec 2 1 (by norm_num)

/-- Per-sample identity at unity gain below the limiter threshold. -/
theorem applySample_one_id (s : ℤ) (h : |s| ≤ 32111) :
    applySample 1 s = s := by
  have hcast : |(s : ℚ)| ≤ 32111 := by
    rw [← Int.cast_abs]
    exact_mod_cast h
  obtain ⟨hb1, hb2⟩ := abs_le.mp hcast
  simp only [applySample, mul_one]
  have hlim : soft_limit (s : ℚ) limThreshold = (s : ℚ) := by
    simp only [soft_limit]
    rw [if_pos (by rw [limThreshold, max_i16]; linarith)]
  rw [hlim]
  have hclamp : min (max (s : ℚ) (-max_i16)) max_i16 = (s : ℚ) := by
    rw [max_i16]
    rw [max_eq_left (by linarith), min_eq_left (by linarith)]
  rw [hclamp]
  simp only [castI16, ratTrunc_intCast]
  obtain ⟨h1, h2⟩ := abs_le.mp h
  rw [min_eq_right (by linarith), max_eq_right (by linarith)]

/-- Claim C4 (amended): `apply_gain_and_limit` at unity gain is the
identity on buffers whose samples all have magnitude at most 32111,
i.e. stay below the limiter threshold `0.98 * i16::MAX ≈ 32111.66`;
larger samples are compressed by the soft limiter even at unity gain. -/
theorem C4_unity_gain_id (input : List ℤ)
    (h : ∀ s ∈ input, |s| ≤ 32111) :
    apply_gain_and_limit input 1 = input := by
  unfold apply_gain_and_limit
  induction input with
  | nil => rfl
  | cons a l ih =>
    have ha : |a| ≤ 32111 := h a (List.mem_cons_self a l)
    have hl : ∀ s ∈ l, |s| ≤ 32111 := fun s hs => h s (List.mem_cons_of_mem a hs)
    simp only [List.map_cons, applySample_one_id a ha, ih hl]

/-- Witness for C4 on a buffer below the limiter threshold. -/
theorem C4_witness :
    apply_gain_and_limit [32111, -32111, 0] 1 = [32111, -32111, 0] :=
  C4_unity_gain_id [32111, -32111, 0] (by decide)

/-- Counterexample for C4 as stated: at unity gain, the full-scale
sample `32767` exceeds the limiter threshold `0.98 * 32767 ≈ 32111.66`
and is compressed to `32112`, so the output buffer differs from the
input buffer. -/
theorem C4_counterexample :
    apply_gain_and_limit [32767] 1 = [32112] ∧
    apply_gain_and_limit [32767] 1 ≠ [32767] := by
  constructor
  · norm_num [apply_gain_and_limit, applySample, soft_limit, signumF,
      limThreshold, max_i16, castI16, ratTrunc]
  · norm_num [apply_gain_and_limit, applySample, soft_limit, signumF,
      limThreshold, max_i16, castI16, ratTrunc]

/-- Claim C5: every sample produced by `apply_gain_and_limit` has
magnitude at most `i16::MAX = 32767`, for every input buffer and every
linear gain: the clamp before the cast keeps the value in
`[-32767, 32767]`, and truncation toward zero cannot leave it. -/
theorem C5_output_bounded (input : List ℤ) (gain : ℚ) (o : ℤ)
    (ho : o ∈ apply_gain_and_limit input gain) : |o| ≤ 32767 := by
  rw [apply_gain_and_limit, List.mem_map] at ho
  obtain ⟨s, _, rfl⟩ := ho
  rw [abs_le]
  simp only [applySample]
  set x := min (max (soft_limit ((s : ℚ) * gain) limThreshold) (-max_i16)) max_i16 with hx
  have hx_le : x ≤ 32767 := by
    rw [hx, max_i16]
    exact min_le_right _ _
  have hx_ge : -32767 ≤ x := by
    rw [hx, max_i16]
    exact le_min (le_max_right _ _) (by norm_num)
  have hfl : ⌊(32767 : ℚ)⌋ = (32767 : ℤ) := by
    rw [show (32767 : ℚ) = ((32767 : ℤ) : ℚ) by norm_num, Int.floor_intCast]
  have hcl : ⌈(32767 : ℚ)⌉ = (32767 : ℤ) := by
    rw [show (32767 : ℚ) = ((32767 : ℤ) : ℚ) by norm_num, Int.ceil_intCast]
  have hfl' : ⌊(-32767 : ℚ)⌋ = (-32767 : ℤ) := by
    rw [show (-32767 : ℚ) = ((-32767 : ℤ) : ℚ) by norm_num, Int.floor_intCast]
  have hcl' : ⌈(-32767 : ℚ)⌉ = (-32767 : ℤ) := by
    rw [show (-32767 : ℚ) = ((-32767 : ℤ) : ℚ) by norm_num, Int.ceil_intCast]
  have htr_le : ratTrunc x ≤ 32767 := by
    unfold ratTrunc
    split
    · calc ⌊x⌋ ≤ ⌊(32767 : ℚ)⌋ := Int.floor_le_floor hx_le
        _ = 32767 := hfl
    · calc ⌈x⌉ ≤ ⌈(32767 : ℚ)⌉ := Int.ceil_le_ceil hx_le
        _ = 32767 := hcl
  have htr_ge : -32767 ≤ ratTrunc x := by
    unfold ratTrunc
    split
    · calc (-32767 : ℤ) = ⌊(-32767 : ℚ)⌋ := hfl'.symm
        _ ≤ ⌊x⌋ := Int.floor_le_floor hx_ge
    · calc (-32767 : ℤ) = ⌈(-32767 : ℚ)⌉ := hcl'.symm
        _ ≤ ⌈x⌉ := Int.ceil_le_ceil hx_ge
  constructor
  · simp only [castI16]
    exact le_max_of_le_right (le_min (by norm_num) htr_ge)
  · simp only [castI16]
    exact max_le (by norm_num) (min_le_left _ _)

/-- Witness for C5: the clipped output of the full-scale sample at
gain 2 is `32112`, within the `i16` range. -/
theorem C5_witness : |(32112 : ℤ)| ≤ 32767 :=
  C5_output_bounded [32767] 2 32112 (by
    norm_num [apply_gain_and_limit, applySample, soft_limit, signumF,
      limThreshold, max_i16, castI16, ratTrunc])

/-- Claim C7: a step with non-positive elapsed time is a no-op.
`step_dt` with `dt ≤ 0` returns the current value and leaves the whole
state unchanged; `step` with measured elapsed time `≤ 0` (i.e. `now`
not after `last_update`, so the saturating `Instant` subtraction gives
`0`) returns the current value and leaves `value_db`, `tau_attack` and
`tau_release` unchanged. -/
theorem C7_nonpositive_dt_noop (s : Smoother) (target dt now : ℝ)
    (hdt : dt ≤ 0) (hnow : now ≤ s.last_update) :
    s.step_dt target dt = (s, s.value_db) ∧
    (s.step target now).2 = s.value_db ∧
    (s.step target now).1.value_db = s.value_db ∧
    (s.step target now).1.tau_attack = s.tau_attack ∧
    (s.step target now).1.tau_release = s.tau_release := by
  have h1 : s.step_dt target dt = (s, s.value_db) := by
    rw [Smoother.step_dt, if_pos hdt]
  have h2 : instantSub now s.last_update ≤ 0 :=
    max_le (by linarith) le_rfl
  refine ⟨h1, ?_, ?_, ?_, ?_⟩ <;>
    simp [Smoother.step, if_pos h2]

/-- Witness for C7 at a concrete state with `dt = -1` and a clock
reading one second before `last_update`. -/
theorem C7_witness :
    (Smoother.mk 5 (1/10) 1 10).step_dt 7 (-1)
      = (Smoother.mk 5 (1/10) 1 10, (Smoother.mk 5 (1/10) 1 10).value_db) ∧
    ((Smoother.mk 5 (1/10) 1 10).step 7 9).2
      = (Smoother.mk 5 (1/10) 1 10).value_db ∧
    ((Smoother.mk 5 (1/10) 1 10).step 7 9).1.value_db
      = (Smoother.mk 5 (1/10) 1 10).value_db ∧
    ((Smoother.mk 5 (1/10) 1 10).step 7 9).1.tau_attack
      = (Smoother.mk 5 (1/10) 1 10).tau_attack ∧
    ((Smoother.mk 5 (1/10) 1 10).step 7 9).1.tau_release
      = (Smoother.mk 5 (1/10) 1 10).tau_release :=
  C7_nonpositive_dt_noop (Smoother.mk 5 (1/10) 1 10) 7 (-1) 9
    (by norm_num) (by norm_num)

/-- Claim C9 (amended): both `fetch_remote_state` variants are total
functions of the transport outcome (the shallow embedding returns
`none` rather than failing): transport failure, non-success status and
malformed bodies all give `none`; a successful JSON response yields a
reading exactly when BOTH `cabin_db` and `speed_kmh` are present and
numeric, and gives `none` (no update) when either is absent or
non-numeric.  The two variants agree on every outcome. -/
theorem C9_fetch_remote_state (r : FetchOutcome) :
    fetch_remote_state4 r = fetch_remote_state6 r ∧
    fetch_remote_state6 FetchOutcome.transportError = none ∧
    (∀ body, fetch_remote_state6 (FetchOutcome.response false body) = none) ∧
    fetch_remote_state6 (FetchOutcome.response true none) = none ∧
    (∀ j c s, jsonNum j "cabin_db" = some c → jsonNum j "speed_kmh" = some s →
      fetch_remote_state6 (FetchOutcome.response true (some j)) = some (c, s)) ∧
    (∀ j, jsonNum j "cabin_db" = none ∨ jsonNum j "speed_kmh" = none →
      fetch_remote_state6 (FetchOutcome.response true (some j)) = none) := by
  refine ⟨?_, rfl, fun body => rfl, rfl, ?_, ?_⟩
  · cases r with
    | transportError => rfl
    | response success body =>
      cases success
      · rfl
      · cases body with
        | none => rfl
        | some j =>
          simp only [fetch_remote_state4, fetch_remote_state6]
          cases hc : jsonNum j "cabin_db" <;>
            cases hs : jsonNum j "speed_kmh" <;> simp
  · intro j c s hc hs
    simp [fetch_remote_state6, hc, hs]
  · intro j h
    rcases h with h | h
    · simp [fetch_remote_state6, h]
    · cases hc : jsonNum j "cabin_db"
      · simp [fetch_remote_state6, hc]
      · simp [fetch_remote_state6, hc, h]

/-- Witness for C9: a successful response carrying both numeric fields
yields the reading `(60, 70)`. -/
theorem C9_witness :
    fetch_remote_state6 (FetchOutcome.response true
      (some ⟨[("cabin_db", JsonField.num 60), ("speed_kmh", JsonField.num 70)]⟩))
      = some (60, 70) :=
  (C9_fetch_remote_state FetchOutcome.transportError).2.2.2.2.1
    ⟨[("cabin_db", JsonField.num 60), ("speed_kmh", JsonField.num 70)]⟩
    60 70 rfl rfl

/-- Counterexample for C9 as stated: a successful response whose body
exposes the numeric field `cabin_db` but lacks `speed_kmh` does NOT
yield an updated reading — both variants return `none`. -/
theorem C9_counterexample :
    fetch_remote_state6 (FetchOutcome.response true
      (some ⟨[("cabin_db", JsonField.num 60)]⟩)) = none ∧
    fetch_remote_state4 (FetchOutcome.response true
      (some ⟨[("cabin_db", JsonField.num 60)]⟩)) = none :=
  ⟨rfl, rfl⟩

/-- Claim C10: the deterministic mock sensors are bounded — for every
simulated time `t`, `mock_get_speed_kmh t ∈ [20, 100]` (so the in-code
comment's 0 and 120 km/h are never reached) and
`mock_get_cabin_noise_db t ∈ [47, 73]`. -/
theorem C10_mock_bounds : ∀ t : ℝ,
    20 ≤ mock_get_speed_kmh t ∧ mock_get_speed_kmh t ≤ 100 ∧
    0 < mock_get_speed_kmh t ∧ mock_get_speed_kmh t < 120 ∧
    47 ≤ mock_get_cabin_noise_db t ∧ mock_get_cabin_noise_db t ≤ 73 := by
  intro t
  have h1 := Real.neg_one_le_sin (0.05 * t)
  have h2 := Real.sin_le_one (0.05 * t)
  have h3 := Real.neg_one_le_sin (0.2 * t)
  have h4 := Real.sin_le_one (0.2 * t)
  have h5 := Real.neg_one_le_sin (0.5 * t)
  have h6 := Real.sin_le_one (0.5 * t)
  simp only [mock_get_speed_kmh, mock_get_cabin_noise_db]
  norm_num
  refine ⟨by linarith, by linarith, by linarith, by linarith, by linarith,
    by linarith⟩

/-- Unfolding of `step_dt` on a positive `dt`. -/
theorem step_dt_pos (s : Smoother) (target dt : ℝ) (hdt : 0 < dt) :
    s.step_dt target dt =
      ({ s with value_db := s.value_db
          + (1 - Real.exp (-dt / s.tauSelect target)) * (target - s.value_db) },
       s.value_db
          + (1 - Real.exp (-dt / s.tauSelect target)) * (target - s.value_db)) := by
  rw [Smoother.step_dt, if_neg (not_le.mpr hdt)]

/-- Claim C1 (amended): for `dt > 0`, `Smoother::step_dt` selects
`tau_attack` whenever `target ≥ current` (the boundary `target =
current` included) and `tau_release` when `target < current`, and
updates by `current += (1 - exp(-dt/tau)) * (target - current)`,
returning the updated value.  `AdaptiveGain::compute_gain` uses the
same update formula but selects `tau_attack` only when `raw > current`:
at the boundary `raw = current` it selects `tau_release` — there the
increment is zero, so the returned value is unaffected. -/
theorem C1_tau_selection_and_update (s : Smoother) (g : AdaptiveGain)
    (target dt cabin speed now : ℝ) (hdt : 0 < dt) :
    (s.value_db ≤ target → s.tauSelect target = s.tau_attack) ∧
    (target < s.value_db → s.tauSelect target = s.tau_release) ∧
    (s.step_dt target dt).2
      = s.value_db + (1 - Real.exp (-dt / s.tauSelect target)) * (target - s.value_db) ∧
    (s.step_dt target dt).1.value_db = (s.step_dt target dt).2 ∧
    (g.last_gain_db < g.rawGain cabin speed →
      g.tauSelect (g.rawGain cabin speed) = g.tau_attack) ∧
    (g.rawGain cabin speed ≤ g.last_gain_db →
      g.tauSelect (g.rawGain cabin speed) = g.tau_release) ∧
    (g.compute_gain cabin speed now).2.1
      = g.last_gain_db + (1 - Real.exp (-(instantSub now g.last_update)
          / g.tauSelect (g.rawGain cabin speed)))
            * (g.rawGain cabin speed - g.last_gain_db) ∧
    (g.compute_gain cabin speed now).1.last_gain_db
      = (g.compute_gain cabin speed now).2.1 ∧
    (g.rawGain cabin speed = g.last_gain_db →
      (g.compute_gain cabin speed now).2.1 = g.last_gain_db) := by
  refine ⟨?_, ?_, ?_, ?_, ?_, ?_, ?_, ?_, ?_⟩
  · intro h
    rw [Smoother.tauSelect, if_neg (not_lt.mpr h)]
  · intro h
    rw [Smoother.tauSelect, if_pos h]
  · rw [step_dt_pos s target dt hdt]
  · rw [step_dt_pos s target dt hdt]
  · intro h
    rw [AdaptiveGain.tauSelect, if_pos h]
  · intro h
    rw [AdaptiveGain.tauSelect, if_neg (not_lt.mpr h)]
  · rfl
  · rfl
  · intro h
    simp only [AdaptiveGain.compute_gain]
    rw [h]
    ring

/-- Witness for C1: at the boundary state `value = target = 0`,
`Smoother::step_dt` selects the attack time constant. -/
theorem C1_witness :
    (Smoother.mk 0 (1/10) 1 0).tauSelect 0 = (Smoother.mk 0 (1/10) 1 0).tau_attack :=
  (C1_tau_selection_and_update (Smoother.mk 0 (1/10) 1 0)
    (AdaptiveGain.mk 0 0 (1/10) 1 75 0) 0 1 60 80 1 (by norm_num)).1 le_rfl

/-- Counterexample for C1 as stated: in `AdaptiveGain::compute_gain`
the boundary `raw_gain_db = last_gain_db` (here both `0`) selects
`tau_release = 1.0`, not `tau_attack = 0.1` as the claim requires. -/
theorem C1_counterexample :
    (0 : ℝ) ≥ (AdaptiveGain.mk 0 0 (1/10) 1 75 0).last_gain_db ∧
    (AdaptiveGain.mk 0 0 (1/10) 1 75 0).tauSelect 0
      ≠ (AdaptiveGain.mk 0 0 (1/10) 1 75 0).tau_attack := by
  constructor
  · norm_num
  · simp only [AdaptiveGain.tauSelect]
    norm_num

/-- The selected time constant is positive when both configured time
constants are. -/
theorem tauSelect_pos (s : Smoother) (target : ℝ) (ha : 0 < s.tau_attack)
    (hr : 0 < s.tau_release) : 0 < s.tauSelect target := by
  rw [Smoother.tauSelect]
  split <;> assumption

/-- One `step_dt` scales the remaining error by `exp(-dt/tau)`. -/
theorem step_dt_error (s : Smoother) (target dt : ℝ) (hdt : 0 < dt) :
    (s.step_dt target dt).1.value_db - target
      = Real.exp (-dt / s.tauSelect target) * (s.value_db - target) := by
  rw [step_dt_pos s target dt hdt]
  dsimp only
  ring

/-- Stepping by `step_dt` never changes the configured time constants. -/
theorem step_dt_tau_eq (s : Smoother) (target dt : ℝ) :
    (s.step_dt target dt).1.tau_attack = s.tau_attack ∧
    (s.step_dt target dt).1.tau_release = s.tau_release := by
  rw [Smoother.step_dt]
  split <;> exact ⟨rfl, rfl⟩

/-- Iterated stepping never changes the configured time constants. -/
theorem stepIter_tau (s : Smoother) (target dt : ℝ) (k : ℕ) :
    (s.stepIter target dt k).tau_attack = s.tau_attack ∧
    (s.stepIter target dt k).tau_release = s.tau_release := by
  induction k with
  | zero => exact ⟨rfl, rfl⟩
  | succ k ih =>
    rw [Smoother.stepIter]
    have h := step_dt_tau_eq (s.stepIter target dt k) target dt
    exact ⟨h.1.trans ih.1, h.2.trans ih.2⟩

/-- After `k` steps of size `dt` the remaining error is scaled by
`exp(-(k*dt)/tau)` with the initially selected `tau` (the selection is
stable along the trajectory: the error never changes sign). -/
theorem stepIter_error (s : Smoother) (target dt : ℝ)
    (ha : 0 < s.tau_attack) (hr : 0 < s.tau_release) (hdt : 0 < dt) :
    ∀ k : ℕ, (s.stepIter target dt k).value_db - target
      = Real.exp (-((k : ℝ) * dt) / s.tauSelect target) * (s.value_db - target) := by
  intro k
  induction k with
  | zero => simp [Smoother.stepIter]
  | succ k ih =>
    have hτpos : 0 < s.tauSelect target := tauSelect_pos s target ha hr
    have hsel : (s.stepIter target dt k).tauSelect target = s.tauSelect target := by
      rw [Smoother.tauSelect, Smoother.tauSelect,
        (stepIter_tau s target dt k).1, (stepIter_tau s target dt k).2]
      have hE : 0 < Real.exp (-((k : ℝ) * dt) / s.tauSelect target) :=
        Real.exp_pos _
      by_cases hc : target < s.value_db
      · rw [if_pos hc, if_pos ?_]
        have : 0 < (s.stepIter target dt k).value_db - target := by
          rw [ih]
          exact mul_pos hE (by linarith)
        linarith
      · rw [if_neg hc, if_neg ?_]
        have : (s.stepIter target dt k).value_db - target ≤ 0 := by
          rw [ih]
          have hvt : s.value_db - target ≤ 0 := by
            push_neg at hc
            linarith
          exact mul_nonpos_of_nonneg_of_nonpos hE.le hvt
        linarith
    rw [Smoother.stepIter, step_dt_error _ target dt hdt, hsel, ih,
      ← mul_assoc, ← Real.exp_add]
    congr 2
    push_cast
    field_simp
    ring

/-- Claim C2: for positive time constants and `dt > 0`, one `step_dt`
scales the remaining error by exactly `exp(-dt/tau)`; the value moves
monotonically toward the target and never overshoots (it stays between
the old value and the target, inclusive); and after `k` steps whose
total elapsed time `k*dt` equals `n` multiples of `tau`, the remaining
error is `exp(-n)` times the initial gap. -/
theorem C2_exponential_convergence (s : Smoother) (target dt : ℝ)
    (ha : 0 < s.tau_attack) (hr : 0 < s.tau_release) (hdt : 0 < dt) :
    ((s.step_dt target dt).2 - target
       = Real.exp (-dt / s.tauSelect target) * (s.value_db - target)) ∧
    (s.value_db ≤ target →
       s.value_db ≤ (s.step_dt target dt).2 ∧ (s.step_dt target dt).2 ≤ target) ∧
    (target ≤ s.value_db →
       target ≤ (s.step_dt target dt).2 ∧ (s.step_dt target dt).2 ≤ s.value_db) ∧
    (∀ k : ℕ, (s.stepIter target dt k).value_db - target
       = Real.exp (-((k : ℝ) * dt) / s.tauSelect target) * (s.value_db - target)) ∧
    (∀ (n : ℝ) (k : ℕ), (k : ℝ) * dt = n * s.tauSelect target →
       (s.stepIter target dt k).value_db - target
         = Real.exp (-n) * (s.value_db - target)) := by
  have hτpos : 0 < s.tauSelect target := tauSelect_pos s target ha hr
  have hE0 : 0 < Real.exp (-dt / s.tauSelect target) := Real.exp_pos _
  have hE1 : Real.exp (-dt / s.tauSelect target) < 1 := by
    rw [Real.exp_lt_one_iff]
    have : 0 < dt / s.tauSelect target := div_pos hdt hτpos
    rw [neg_div]
    linarith
  have herr : (s.step_dt target dt).2 - target
      = Real.exp (-dt / s.tauSelect target) * (s.value_db - target) := by
    rw [step_dt_pos s target dt hdt]
    dsimp only
    ring
  refine ⟨herr, ?_, ?_, stepIter_error s target dt ha hr hdt, ?_⟩
  · intro h
    constructor <;> nlinarith [herr]
  · intro h
    constructor <;> nlinarith [herr]
  · intro n k hk
    rw [stepIter_error s target dt ha hr hdt k, hk]
    congr 2
    field_simp

/-- Witness for C2: one unit step from value `0` toward target `1`
stays between `0` and `1`. -/
theorem C2_witness :
    (Smoother.mk 0 (1/10) 1 0).value_db
        ≤ ((Smoother.mk 0 (1/10) 1 0).step_dt 1 1).2 ∧
    ((Smoother.mk 0 (1/10) 1 0).step_dt 1 1).2 ≤ 1 :=
  (C2_exponential_convergence (Smoother.mk 0 (1/10) 1 0) 1 1
    (by norm_num) (by norm_num) (by norm_num)).2.1 (by norm_num)

/-- The smoothing coefficient `alpha = 1 - exp(-dt/tau)` lies in
`[0, 1]` for `dt ≥ 0` and `tau > 0`. -/
theorem alpha_mem (dt τ : ℝ) (hdt : 0 ≤ dt) (hτ : 0 < τ) :
    0 ≤ 1 - Real.exp (-dt / τ) ∧ 1 - Real.exp (-dt / τ) ≤ 1 := by
  constructor
  · have h1 : Real.exp (-dt / τ) ≤ 1 := by
      rw [Real.exp_le_one_iff, neg_div]
      have : 0 ≤ dt / τ := div_nonneg hdt hτ.le
      linarith
    linarith
  · have := Real.exp_pos (-dt / τ)
    linarith

/-- The raw gain of `compute_gain` is clamped into `[-12, 12]`. -/
theorem rawGain_mem (g : AdaptiveGain) (c sp : ℝ) :
    -12 ≤ g.rawGain c sp ∧ g.rawGain c sp ≤ 12 := by
  simp only [AdaptiveGain.rawGain]
  exact ⟨le_min (le_max_right _ _) (by norm_num), min_le_right _ _⟩

/-- The state field updated by `compute_gain`, written out. -/
theorem compute_gain_last (g : AdaptiveGain) (c sp now : ℝ) :
    (g.compute_gain c sp now).1.last_gain_db
      = g.last_gain_db + (1 - Real.exp (-(instantSub now g.last_update)
          / g.tauSelect (g.rawGain c sp))) * (g.rawGain c sp - g.last_gain_db) := rfl

/-- Calling `compute_gain` never changes the configured time constants. -/
theorem compute_gain_taus (g : AdaptiveGain) (c sp now : ℝ) :
    (g.compute_gain c sp now).1.tau_attack = g.tau_attack ∧
    (g.compute_gain c sp now).1.tau_release = g.tau_release := ⟨rfl, rfl⟩

/-- One `compute_gain` call keeps the smoothed gain inside the clamp
range `[-12, 12]`. -/
theorem compute_gain_bound (g : AdaptiveGain) (c sp now : ℝ)
    (ha : 0 < g.tau_attack) (hr : 0 < g.tau_release)
    (h : |g.last_gain_db| ≤ 12) :
    |(g.compute_gain c sp now).1.last_gain_db| ≤ 12 := by
  obtain ⟨h1, h2⟩ := abs_le.mp h
  obtain ⟨hraw1, hraw2⟩ := rawGain_mem g c sp
  have hτ : 0 < g.tauSelect (g.rawGain c sp) := by
    rw [AdaptiveGain.tauSelect]
    split <;> assumption
  have hdt : 0 ≤ instantSub now g.last_update := le_max_right _ _
  obtain ⟨hα1, hα2⟩ := alpha_mem (instantSub now g.last_update) _ hdt hτ
  rw [compute_gain_last, abs_le]
  set α := 1 - Real.exp (-(instantSub now g.last_update)
      / g.tauSelect (g.rawGain c sp)) with hα
  constructor <;>
    nlinarith [mul_nonneg hα1 (by linarith : (0:ℝ) ≤ g.rawGain c sp + 12),
      mul_nonneg hα1 (by linarith : (0:ℝ) ≤ 12 - g.rawGain c sp),
      mul_nonneg (by linarith : (0:ℝ) ≤ 1 - α)
        (by linarith : (0:ℝ) ≤ g.last_gain_db + 12),
      mul_nonneg (by linarith : (0:ℝ) ≤ 1 - α)
        (by linarith : (0:ℝ) ≤ 12 - g.last_gain_db)]

/-- Every sequence of `compute_gain` calls preserves the clamp bound. -/
theorem runCalls_bound (calls : List (ℝ × ℝ × ℝ)) :
    ∀ g : AdaptiveGain, 0 < g.tau_attack → 0 < g.tau_release →
      |g.last_gain_db| ≤ 12 → |(g.runCalls calls).last_gain_db| ≤ 12 := by
  induction calls with
  | nil => exact fun g _ _ h => h
  | cons hd tl ih =>
    intro g ha hr h
    obtain ⟨c, sp, now⟩ := hd
    rw [AdaptiveGain.runCalls]
    refine ih _ ?_ ?_ (compute_gain_bound g c sp now ha hr h)
    · rw [(compute_gain_taus g c sp now).1]
      exact ha
    · rw [(compute_gain_taus g c sp now).2]
      exact hr

/-- Methods `step` and `step_dt` agree when `step_dt` is fed the measured
(saturating) elapsed time. -/
theorem step_eq_step_dt (sm : Smoother) (target now : ℝ) :
    (sm.step target now).1.value_db
      = (sm.step_dt target (instantSub now sm.last_update)).1.value_db ∧
    (sm.step target now).2
      = (sm.step_dt target (instantSub now sm.last_update)).2 := by
  simp only [Smoother.step, Smoother.step_dt]
  split_ifs <;> exact ⟨rfl, rfl⟩

/-- A `step_dt` whose target is within `[-24, 24]` keeps a value that
was within `[-24, 24]` inside that range. -/
theorem step_dt_bound (sm : Smoother) (target dt : ℝ)
    (ha : 0 < sm.tau_attack) (hr : 0 < sm.tau_release)
    (hv : |sm.value_db| ≤ 24) (ht : |target| ≤ 24) :
    |(sm.step_dt target dt).1.value_db| ≤ 24 := by
  rcases le_or_lt dt 0 with hdt | hdt
  · rw [Smoother.step_dt, if_pos hdt]
    exact hv
  · rw [step_dt_pos sm target dt hdt]
    dsimp only
    obtain ⟨hv1, hv2⟩ := abs_le.mp hv
    obtain ⟨ht1, ht2⟩ := abs_le.mp ht
    have hτ : 0 < sm.tauSelect target := tauSelect_pos sm target ha hr
    obtain ⟨hα1, hα2⟩ := alpha_mem dt _ hdt.le hτ
    rw [abs_le]
    set α := 1 - Real.exp (-dt / sm.tauSelect target) with hα
    constructor <;>
      nlinarith [mul_nonneg hα1 (by linarith : (0:ℝ) ≤ target + 24),
        mul_nonneg hα1 (by linarith : (0:ℝ) ≤ 24 - target),
        mul_nonneg (by linarith : (0:ℝ) ≤ 1 - α)
          (by linarith : (0:ℝ) ≤ sm.value_db + 24),
        mul_nonneg (by linarith : (0:ℝ) ≤ 1 - α)
          (by linarith : (0:ℝ) ≤ 24 - sm.value_db)]

/-- Claim C8: the smoothed gain state respects the configured safety
clamp.  From construction (`last_gain_db = 0`), every sequence of
`compute_gain` calls with positive time constants keeps `last_gain_db`
in `[-12, 12]`; a single call preserves the bound from any state inside
it; and the main-loop `Smoother`, whose target is clamped to
`[-24, 24]`, likewise keeps its value in `[-24, 24]` under `step`. -/
theorem C8_safety_clamp (l ta tr u now0 : ℝ) (hta : 0 < ta) (htr : 0 < tr)
    (calls : List (ℝ × ℝ × ℝ)) :
    |((AdaptiveGain.new l ta tr u now0).runCalls calls).last_gain_db| ≤ 12 ∧
    (∀ (g : AdaptiveGain) (c sp now : ℝ),
      0 < g.tau_attack → 0 < g.tau_release → |g.last_gain_db| ≤ 12 →
      |(g.compute_gain c sp now).1.last_gain_db| ≤ 12) ∧
    (∀ (sm : Smoother) (target now : ℝ),
      0 < sm.tau_attack → 0 < sm.tau_release →
      |sm.value_db| ≤ 24 → |target| ≤ 24 →
      |(sm.step target now).1.value_db| ≤ 24) := by
  refine ⟨?_, fun g c sp now ha hr h => compute_gain_bound g c sp now ha hr h,
    fun sm target now ha hr hv htg => ?_⟩
  · refine runCalls_bound calls _ hta htr ?_
    show |(0 : ℝ)| ≤ 12
    norm_num
  · rw [(step_eq_step_dt sm target now).1]
    exact step_dt_bound sm target (instantSub now sm.last_update) ha hr hv htg

/-- Witness for C8: a one-call session from construction stays inside
the clamp. -/
theorem C8_witness :
    |((AdaptiveGain.new 75 (1/10) 1 0 0).runCalls [(60, 80, 1)]).last_gain_db| ≤ 12 :=
  (C8_safety_clamp 75 (1/10) 1 0 0 (by norm_num) (by norm_num) [(60, 80, 1)]).1

/-- Numeric lower bound on `e^4`. -/
theorem exp_four_gt : (54.598 : ℝ) < Real.exp 4 := by
  have h4 : Real.exp 1 ^ 4 = Real.exp 4 := by
    rw [Real.exp_one_pow]
    norm_num
  have hb : (2.7182818283 : ℝ) ^ 4 < Real.exp 1 ^ 4 := by
    gcongr
    exact Real.exp_one_gt_d9
  rw [h4] at hb
  nlinarith [hb]

/-- Numeric upper bound on `e^4`. -/
theorem exp_four_lt : Real.exp 4 < (54.599 : ℝ) := by
  have h4 : Real.exp 1 ^ 4 = Real.exp 4 := by
    rw [Real.exp_one_pow]
    norm_num
  have hb : Real.exp 1 ^ 4 < (2.7182818286 : ℝ) ^ 4 := by
    gcongr
    exact Real.exp_one_lt_d9
  rw [h4] at hb
  nlinarith [hb]

/-- Lower bound on `ln 61`. -/
theorem log_61_gt : (4.1025 : ℝ) < Real.log 61 := by
  rw [Real.lt_log_iff_exp_lt (by norm_num)]
  rw [show (4.1025 : ℝ) = 4 + 0.1025 by norm_num, Real.exp_add]
  have hp : (0 : ℝ) < Real.exp 0.1025 := Real.exp_pos _
  have hsmall : Real.exp 0.1025 < 1 / 0.8975 := by
    have h := Real.add_one_lt_exp (show (-0.1025 : ℝ) ≠ 0 by norm_num)
    rw [Real.exp_neg] at h
    have h2 := mul_lt_mul_of_pos_right h hp
    rw [inv_mul_cancel₀ hp.ne'] at h2
    rw [lt_div_iff₀ (by norm_num : (0:ℝ) < 0.8975)]
    nlinarith [h2]
  calc Real.exp 4 * Real.exp 0.1025
      < 54.599 * (1 / 0.8975) := by
        exact mul_lt_mul exp_four_lt hsmall.le hp (by norm_num)
    _ < 61 := by norm_num

/-- Upper bound on `ln 61`. -/
theorem log_61_lt : Real.log 61 < (4.11916 : ℝ) := by
  rw [Real.log_lt_iff_lt_exp (by norm_num)]
  rw [show (4.11916 : ℝ) = 4 + 0.11916 by norm_num, Real.exp_add]
  have hge : (1.11916 : ℝ) ≤ Real.exp 0.11916 := by
    have := Real.add_one_le_exp (0.11916 : ℝ)
    linarith
  calc (61 : ℝ) < 54.598 * 1.11916 := by norm_num
    _ ≤ Real.exp 4 * Real.exp 0.11916 :=
        mul_le_mul exp_four_gt.le hge (by norm_num) (Real.exp_pos 4).le

/-- Claim C6 (amended): `speed_to_noise` is `6 * ln(speed + 1) + 40`,
strictly increasing for `speed ≥ 0`, with `speed_to_noise 90 >
speed_to_noise 60`; its value at `60` is `6 * ln 61 + 40 ≈ 64.665`
(within `0.05`) — not `≈ 64.48` as the spec states. -/
theorem C6_speed_to_noise :
    (∀ speed : ℝ, speed_to_noise speed = 6 * Real.log (speed + 1) + 40) ∧
    (∀ x y : ℝ, 0 ≤ x → x < y → speed_to_noise x < speed_to_noise y) ∧
    speed_to_noise 60 < speed_to_noise 90 ∧
    |speed_to_noise 60 - 64.665| < 0.05 := by
  have hdef : ∀ speed : ℝ,
      speed_to_noise speed = 6 * Real.log (speed + 1) + 40 := by
    intro speed
    simp only [speed_to_noise]
    norm_num
  have hmono : ∀ x y : ℝ, 0 ≤ x → x < y →
      speed_to_noise x < speed_to_noise y := by
    intro x y hx hxy
    rw [hdef x, hdef y]
    have := Real.log_lt_log (show (0:ℝ) < x + 1 by linarith)
      (show x + 1 < y + 1 by linarith)
    linarith
  have h60 : speed_to_noise 60 = 6 * Real.log 61 + 40 := by
    rw [hdef 60]
    norm_num
  refine ⟨hdef, hmono, hmono 60 90 (by norm_num) (by norm_num), ?_⟩
  rw [h60, abs_lt]
  constructor
  · nlinarith [log_61_gt]
  · nlinarith [log_61_lt]

/-- Witness for C6: strict increase from speed `0` to speed `1`. -/
theorem C6_witness : speed_to_noise 0 < speed_to_noise 1 :=
  C6_speed_to_noise.2.1 0 1 le_rfl (by norm_num)

/-- Counterexample for C6 as stated: `speed_to_noise 60 = 6 * ln 61 +
40 ≈ 64.665` is more than `0.1` away from the spec's claimed value
`64.48`. -/
theorem C6_counterexample : (0.1 : ℝ) < |speed_to_noise 60 - 64.48| := by
  have h60 : speed_to_noise 60 = 6 * Real.log 61 + 40 := by
    simp only [speed_to_noise]
    norm_num
  have hgap : (0.1 : ℝ) < speed_to_noise 60 - 64.48 := by
    rw [h60]
    nlinarith [log_61_gt]
  calc (0.1 : ℝ) < speed_to_noise 60 - 64.48 := hgap
    _ ≤ |speed_to_noise 60 - 64.48| := le_abs_self _

end AdaptiveVolume
